import Mathlib

/-!
# Expense tracker: a shallow embedding of `app.py`

This file embeds the core of the expense-tracker program (`app.py`) in Lean:
the durable record store (CSV file as a list of lines, `clean_csv` repair,
the pandas-based read of `get_summary`) and the summary computation
(aggregation, budget math), plus the write path of the `index` route
(validation, `csv.writer` serialization, append).

Modelling conventions:
* the backing file is a `List String` of lines without their terminators
  (`readlines` splits on the terminator, `str.strip()` removes a trailing
  CR before any field counting, and both writers re-emit lines verbatim,
  so terminators never influence the behaviour under study);
* Python/pandas floats are modelled as `Rat`; the half-to-even tie of
  binary-float rounding is modelled as half-up rounding (`ratRound`), a
  difference visible only at exact half-cent ties;
* `float(...)` applied to the submitted amount string is modelled by an
  `Option Rat` carried in the submission (`none` when `float` raises);
* the pandas CSV tokenizer is modelled by `pCSV`: quoted fields with
  doubled-quote escapes, `skipinitialspace=True` eating spaces and tabs at
  the start of a field, `on_bad_lines=skip` dropping rows with more than
  four parsed fields, missing trailing fields read as NA, empty fields and
  the default NA sentinel strings converted to NA, and blank lines
  skipped.
-/

namespace ExpenseTracker

/-! ## Python string helpers: `str.strip()` and `str.split(sep)` -/

/-- Characters stripped by Python `str.strip()` (the ASCII ones; the file
format never contains other Unicode whitespace). -/
def pyWhitespace (c : Char) : Bool :=
  c = ' ' || c = '\t' || c = '\n' || c = '\x0d' || c = '\x0b' || c = '\x0c'

/-- Python `str.strip()` on a character list. -/
def pyStripChars (cs : List Char) : List Char :=
  ((cs.dropWhile pyWhitespace).reverse.dropWhile pyWhitespace).reverse

/-- Python `str.strip()`. -/
def pyStrip (s : String) : String :=
  String.mk (pyStripChars s.data)

/-- Python `str.split(sep)` for a one-character separator, on character
lists: splitting the empty string yields one empty field, every separator
occurrence starts a new field. -/
def pySplitChars (sep : Char) : List Char → List (List Char)
  | [] => [[]]
  | c :: cs =>
    let rest := pySplitChars sep cs
    if c = sep then
      [] :: rest
    else
      match rest with
      | [] => [[c]]
      | f :: fs => (c :: f) :: fs

/-- Python `s.split(sep)` (one-character separator). -/
def pySplit (sep : Char) (s : String) : List String :=
  (pySplitChars sep s.data).map String.mk

/-- Field count used by `clean_csv`: `len(line.strip().split(','))`. -/
def rawFieldCount (line : String) : Nat :=
  (pySplit ',' (pyStrip line)).length

/-! ## `clean_csv` -/

/-- `clean_csv` (app.py:37-54): keep the header line unconditionally, keep a
subsequent line only if `line.strip().split(',')` has exactly 4 fields,
write the kept lines back.  On an empty file `lines[0]` raises and the
handler leaves the file unchanged. -/
def clean_csv (lines : List String) : List String :=
  match lines with
  | [] => lines
  | header :: rest => header :: rest.filter (fun l => rawFieldCount l = 4)

/-! ## Decimal digits: printing and parsing of amounts

Models Python number formatting (`f"{x:.2f}"`) and `pd.to_numeric` on the
plain decimal notation the program reads and writes. -/

/-- One decimal digit as a character. -/
def digitChar : Nat → Char
  | 0 => '0' | 1 => '1' | 2 => '2' | 3 => '3' | 4 => '4'
  | 5 => '5' | 6 => '6' | 7 => '7' | 8 => '8' | 9 => '9'
  | _ => '0'

/-- Is `c` a decimal digit? -/
def isDig (c : Char) : Bool :=
  48 ≤ c.toNat && c.toNat ≤ 57

/-- Numeric value of a digit character. -/
def digVal (c : Char) : Nat := c.toNat - 48

/-- Decimal digits of `n`, most significant first, with explicit fuel so the
definition is structural (and hence evaluates inside the kernel). -/
def natDigitsAux : Nat → Nat → List Char
  | 0, _ => []
  | fuel + 1, n =>
    if n < 10 then [digitChar n]
    else natDigitsAux fuel (n / 10) ++ [digitChar (n % 10)]

/-- Decimal digits of `n`, most significant first. -/
def natDigits (n : Nat) : List Char := natDigitsAux (n + 1) n

/-- Decimal rendering of a natural number. -/
def natToStr (n : Nat) : String := String.mk (natDigits n)

/-- Value of a digit string, most significant first. -/
def digitsVal (cs : List Char) : Nat :=
  cs.foldl (fun a c => a * 10 + digVal c) 0

/-- `⌊q + 1/2⌋`: the rounding used to model float rounding to a whole
number of cents (Python rounds half to even; the difference shows only at
exact half-cent ties). -/
def ratRound (q : Rat) : Int :=
  Int.fdiv (2 * q.num + q.den) (2 * q.den)

/-- Round a rational to 2 decimal places (`Series.round(2)`, and the value
read back from an amount written with `f"{x:.2f}"`). -/
def round2 (q : Rat) : Rat := (ratRound (q * 100) : Rat) / 100

/-- The two digit characters of a value `r < 100` (the `%02d` padding of
the cents part). -/
def pad2chars (r : Nat) : List Char :=
  if r < 10 then ['0', digitChar r] else [digitChar (r / 10), digitChar (r % 10)]

/-- Format `m` cents as `units.cc`. -/
def centsToStr (m : Nat) : String :=
  natToStr (m / 100) ++ "." ++ String.mk (pad2chars (m % 100))

/-- Python `f"{q:.2f}"`: fixed two-decimal rendering. -/
def fmt2 (q : Rat) : String :=
  let n : Int := ratRound (q * 100)
  if n < 0 then "-" ++ centsToStr n.natAbs else centsToStr n.toNat

/-- `pd.to_numeric(..., errors=coerce)` on one field, for the plain decimal
notation `[-]digits[.digits]` that the store ever holds (exotic float
syntax such as exponents is out of scope of the embedding). -/
def parseUnsigned (cs : List Char) : Option Rat :=
  let ip := cs.takeWhile (fun c => c ≠ '.')
  let rest := cs.dropWhile (fun c => c ≠ '.')
  if ip.all isDig then
    match rest with
    | [] => if ip.isEmpty then none else some ((digitsVal ip : Nat) : Rat)
    | _ :: frac =>
      if frac.all isDig && !(ip.isEmpty && frac.isEmpty) then
        some (((digitsVal ip : Nat) : Rat) +
          ((digitsVal frac : Nat) : Rat) / (10 : Rat) ^ frac.length)
      else none
  else none

/-- Signed decimal parse. -/
def parseNum (cs : List Char) : Option Rat :=
  match cs with
  | [] => parseUnsigned []
  | c :: rest =>
    if c = '-' then (parseUnsigned rest).map (fun q => -q)
    else parseUnsigned (c :: rest)

/-- Numeric coercion of an amount field. -/
def parseNumeric (s : String) : Option Rat := parseNum s.data

/-! ## The pandas CSV tokenizer -/

/-- One step short of `pandas.read_csv`: split one line into fields.
State: `inQ` — inside a quoted section; `atStart` — at the start of a
field, where `skipinitialspace=True` eats spaces and tabs and where a
quote opens a quoted section; `acc` — the characters of the current field.
A doubled quote inside a quoted section is an escaped quote. -/
def pCSV : List Char → Bool → Bool → List Char → List (List Char)
  | [], _, _, acc => [acc]
  | [c], true, _, acc =>
    if c = '"' then [acc] else [acc ++ [c]]
  | c :: c2 :: rest, true, _, acc =>
    if c = '"' then
      if c2 = '"' then pCSV rest true false (acc ++ ['"'])
      else pCSV (c2 :: rest) false false acc
    else pCSV (c2 :: rest) true false (acc ++ [c])
  | c :: rest, false, atStart, acc =>
    if c = ',' then acc :: pCSV rest false true []
    else if c = '"' && atStart then pCSV rest true false acc
    else if (c = ' ' || c = '\t') && atStart then pCSV rest false true acc
    else pCSV rest false false (acc ++ [c])

/-- The fields pandas tokenizes one line into. -/
def parseCSVLine (line : String) : List String :=
  (pCSV line.data false true []).map String.mk

/-! ## Records and the read path -/

/-- One row as pandas hands it to `get_summary` after the `Amount` column
is coerced (`pd.to_numeric(...).fillna(0)`): string cells are `none` when
NA (missing trailing field, or an empty field). -/
structure Record where
  name : Option String
  amount : Rat
  category : Option String
  date : Option String
deriving DecidableEq, Repr

/-- The strings `pd.read_csv` converts to NaN by default (its default
`na_values`), the empty field included. -/
def naSentinels : List String :=
  ["", "#N/A", "#N/A N/A", "#NA", "-1.#IND", "-1.#QNAN", "-NaN", "-nan",
   "1.#IND", "1.#QNAN", "<NA>", "N/A", "NA", "NULL", "NaN", "None", "n/a",
   "nan", "null"]

/-- An optional string cell: empty fields and pandas' default NA sentinel
strings read as NA. -/
def cell (f : Option String) : Option String :=
  match f with
  | none => none
  | some s => if s ∈ naSentinels then none else some s

/-- Parse one stored line into a record: blank lines are skipped, a line
with more than four fields is a bad line and is skipped
(`on_bad_lines=skip`), missing trailing fields are NA, and the amount is
coerced with `to_numeric(...).fillna(0)`. -/
def parseRow (line : String) : Option Record :=
  if line = "" then none
  else
    let fs := parseCSVLine line
    if 4 < fs.length then none
    else some {
      name := cell fs[0]?
      amount := ((fs[1]?.bind parseNumeric).getD 0)
      category := cell fs[2]?
      date := cell fs[3]? }

/-- The record sequence `get_summary` reads (app.py:71-84): the first line
is consumed as the header, every later line yields at most one record. -/
def readRecords (lines : List String) : List Record :=
  match lines with
  | [] => []
  | _ :: rest => rest.filterMap parseRow

/-! ## Configuration (app.py:11-23) -/

/-- The fixed monthly budget. -/
def BUDGET : Rat := 2000

/-- The fixed category enumeration. -/
def EXPENSE_CATEGORIES : List String :=
  ["🍔 Food", "🏠 Home", "💼 Work", "🎉 Fun", "✨ Miscellaneous"]

/-! ## Dates -/

/-- A calendar date as the summary and write paths consume it. -/
structure Date where
  year : Nat
  month : Nat
  day : Nat
deriving DecidableEq, Repr

/-- Gregorian leap year (`calendar.isleap`). -/
def isLeap (y : Nat) : Bool :=
  (y % 4 = 0 && y % 100 ≠ 0) || y % 400 = 0

/-- `calendar.monthrange(y, m)[1]`: the number of days of month `m`. -/
def daysInMonth (y m : Nat) : Nat :=
  if m = 2 then (if isLeap y then 29 else 28)
  else if m = 4 || m = 6 || m = 9 || m = 11 then 30
  else 31

/-- `max(1, days_in_month - now.day + 1)` (app.py:93). -/
def remainingDays (y m d : Nat) : Int :=
  max 1 ((daysInMonth y m : Int) - d + 1)

/-- The remaining-days figure as the spec sentence words it, for comparison
with `remainingDays`: "(days in current calendar month) − (current day of
month), with a floor of 1 day". -/
def specRemainingDays (y m d : Nat) : Int :=
  max 1 ((daysInMonth y m : Int) - d)

/-- Four digit characters of a year. -/
def pad4chars (y : Nat) : List Char :=
  if y < 10 then ['0', '0', '0', digitChar y]
  else if y < 100 then '0' :: '0' :: natDigits y
  else if y < 1000 then '0' :: natDigits y
  else natDigits y

/-- `datetime.date.today().isoformat()`: `YYYY-MM-DD`. -/
def isoDate (d : Date) : String :=
  String.mk (pad4chars d.year) ++ "-" ++ String.mk (pad2chars d.month) ++ "-" ++
    String.mk (pad2chars d.day)

/-! ## The summary computation (app.py:59-131) -/

/-- `df['Amount'].sum()`. -/
def totalSpent (rs : List Record) : Rat :=
  (rs.map Record.amount).sum

/-- Sum of the amounts of the records in category `c` (one group of the
`groupby`). -/
def matchSum (rs : List Record) (c : String) : Rat :=
  ((rs.filter (fun r => r.category = some c)).map Record.amount).sum

/-- The distinct category values appearing among the records.  `groupby`
drops NA keys, so records whose category cell is NA contribute no group. -/
def presentCategories (rs : List Record) : List String :=
  (rs.filterMap Record.category).dedup

/-- `df.groupby('Category')['Amount'].sum().round(2).to_dict()` as an
association list: one entry per category value present among the records —
and only those. -/
def categorySummary (rs : List Record) : List (String × Rat) :=
  (presentCategories rs).map (fun c => (c, round2 (matchSum rs c)))

/-- The summary dictionary `get_summary` returns (monetary figures already
formatted for display, as in the code). -/
structure Summary where
  total_spent : String
  remaining_budget : String
  daily_budget : String
  category_summary : List (String × Rat)
  recent_expenses : List Record
deriving DecidableEq, Repr

/-- The zero-valued default summary of the two exception handlers
(app.py:113-131). -/
def defaultSummary : Summary :=
  { total_spent := "$0.00"
    remaining_budget := "$" ++ fmt2 BUDGET
    daily_budget := "$" ++ fmt2 (BUDGET / 30)
    category_summary := []
    recent_expenses := [] }

/-- `get_summary()` (app.py:59-131).  The file argument is `none` when the
read itself fails (missing or unreadable file: the generic handler), and
`some []` — a totally empty file — raises `EmptyDataError`; both return
the zero-valued default.  A file with at least a header line takes the
main path. -/
def get_summary (file : Option (List String)) (today : Date) : Summary × Rat :=
  match file with
  | none => (defaultSummary, 0)
  | some [] => (defaultSummary, 0)
  | some (header :: rest) =>
    let df := readRecords (header :: rest)
    let total := totalSpent df
    let remaining_budget := BUDGET - total
    let remaining_days := remainingDays today.year today.month today.day
    let daily_budget := remaining_budget / (remaining_days : Rat)
    ({ total_spent := "$" ++ fmt2 total
       remaining_budget := "$" ++ fmt2 remaining_budget
       daily_budget := "$" ++ fmt2 daily_budget
       category_summary := categorySummary df
       recent_expenses := (df.drop (df.length - 5)).reverse }, total)

/-- The chart data the `index` route derives from the summary
(app.py:172-175): one `(name, value)` pair per configured category, with
`.get(cat, 0.00)` supplying `0.00` for categories the summary omits. -/
def chart_data (cs : List (String × Rat)) : List (String × Rat) :=
  EXPENSE_CATEGORIES.map (fun cat => (cat, (cs.lookup cat).getD 0))

/-! ## The write path (app.py:138-166) -/

/-- A POST submission.  `amount` is the result of
`float(request.form.get('amount'))`: `none` when `float` raises. -/
structure Submission where
  name : String
  amount : Option Rat
  category : String
deriving DecidableEq, Repr

/-- Does `csv.writer` (QUOTE_MINIMAL) quote this field? -/
def needsQuote (s : String) : Bool :=
  s.data.any (fun c => c = ',' || c = '"' || c = '\n' || c = '\r')

/-- Double every quote character (the `csv` module's escape). -/
def escapeChars : List Char → List Char
  | [] => []
  | c :: cs => if c = '"' then '"' :: '"' :: escapeChars cs else c :: escapeChars cs

/-- One field as `csv.writer` emits it. -/
def serializeField (s : String) : String :=
  if needsQuote s then String.mk ('"' :: (escapeChars s.data ++ ['"'])) else s

/-- Join already-serialized fields with commas. -/
def joinComma : List String → List Char
  | [] => []
  | [f] => f.data
  | f :: fs => f.data ++ ',' :: joinComma fs

/-- The line `csv.writer.writerow` appends for a row. -/
def serializeLine (fields : List String) : String :=
  String.mk (joinComma (fields.map serializeField))

/-- The POST branch of `index` (app.py:138-166): parse the amount, validate
`name and amount > 0 and category in EXPENSE_CATEGORIES`, and either
append the serialized row or leave the file alone.  The second component
is the rejection message passed to the redirect (`none` on success). -/
def handlePost (sub : Submission) (today : Date) (file : List String) :
    List String × Option String :=
  match sub.amount with
  | none => (file, some "Invalid amount. Please enter a valid number.")
  | some amount =>
    if sub.name ≠ "" ∧ 0 < amount ∧ sub.category ∈ EXPENSE_CATEGORIES then
      (file ++ [serializeLine [sub.name, fmt2 amount, sub.category, isoDate today]], none)
    else
      (file, some "Invalid input. Please check your entries.")

theorem clean_csv_cons (h : String) (t : List String) :
    clean_csv (h :: t) = h :: t.filter (fun l => rawFieldCount l = 4) := rfl

/-- C5: `clean_csv` is idempotent, keeps the header, keeps lines in their
original relative order, and leaves an already-clean file unchanged. -/
theorem clean_csv_idempotent (lines : List String) :
    clean_csv (clean_csv lines) = clean_csv lines
    ∧ (∀ h t, lines = h :: t →
        (clean_csv lines).head? = some h ∧ (clean_csv lines).tail.Sublist t)
    ∧ (∀ h t, lines = h :: t → (∀ l ∈ t, rawFieldCount l = 4) →
        clean_csv lines = lines) := by
  refine ⟨?_, ?_, ?_⟩
  · cases lines with
    | nil => rfl
    | cons h t => simp [clean_csv, List.filter_filter]
  · rintro h t rfl
    exact ⟨rfl, by simp only [clean_csv]; exact List.filter_sublist t⟩
  · rintro h t rfl hall
    simp only [clean_csv, List.cons.injEq, true_and]
    exact List.filter_eq_self.mpr (fun l hl => by simp [hall l hl])

theorem clean_csv_idempotent_witness :
    clean_csv (clean_csv ["Name,Amount,Category,Date", "a,b,c", "a,1,2,3"]) =
      clean_csv ["Name,Amount,Category,Date", "a,b,c", "a,1,2,3"]
    ∧ (clean_csv ["Name,Amount,Category,Date", "a,b,c", "a,1,2,3"]).head? =
        some "Name,Amount,Category,Date"
    ∧ clean_csv ["Name,Amount,Category,Date", "a,1,2,3"] =
        ["Name,Amount,Category,Date", "a,1,2,3"] :=
  ⟨(clean_csv_idempotent _).1,
   ((clean_csv_idempotent _).2.1 _ _ rfl).1,
   (clean_csv_idempotent _).2.2 _ _ rfl (by decide)⟩

/-! ## C2: malformed lines under repair and under read -/

/-- C2 (amended): a non-header line whose raw comma-split does not have
exactly 4 fields is absent from the repaired file, and repair keeps the
other lines in their original relative order; the read path however skips
only lines with more than 4 tokenized fields — a non-blank line with at
most 4 fields always yields a record. -/
theorem malformed_line_dropped (header : String) (rest : List String) (line : String)
    (_hmem : line ∈ rest) (hbad : rawFieldCount line ≠ 4) :
    line ∉ (clean_csv (header :: rest)).tail
    ∧ (clean_csv (header :: rest)).tail.Sublist rest
    ∧ (4 < (parseCSVLine line).length → parseRow line = none)
    ∧ (line ≠ "" → (parseCSVLine line).length ≤ 4 → (parseRow line).isSome) := by
  refine ⟨?_, ?_, ?_, ?_⟩
  · simp [clean_csv_cons, List.mem_filter, hbad]
  · simp only [clean_csv_cons, List.tail_cons]
    exact List.filter_sublist rest
  · intro h4
    by_cases hb : line = ""
    · simp [parseRow, hb]
    · simp [parseRow, hb, h4]
  · intro hb h4
    simp [parseRow, hb, Nat.not_lt.mpr h4]

theorem malformed_line_dropped_witness :
    "a,b,c" ∈ ["a,b,c", "x,1,2,3"]
    ∧ rawFieldCount "a,b,c" ≠ 4
    ∧ "a,b,c" ∉ (clean_csv ["Name,Amount,Category,Date", "a,b,c", "x,1,2,3"]).tail
    ∧ (clean_csv ["Name,Amount,Category,Date", "a,b,c", "x,1,2,3"]).tail.Sublist
        ["a,b,c", "x,1,2,3"]
    ∧ (parseRow "a,b,c").isSome :=
  ⟨by decide, by decide,
   (malformed_line_dropped "Name,Amount,Category,Date" ["a,b,c", "x,1,2,3"] "a,b,c"
     (by decide) (by decide)).1,
   (malformed_line_dropped "Name,Amount,Category,Date" ["a,b,c", "x,1,2,3"] "a,b,c"
     (by decide) (by decide)).2.1,
   (malformed_line_dropped "Name,Amount,Category,Date" ["a,b,c", "x,1,2,3"] "a,b,c"
     (by decide) (by decide)).2.2.2 (by decide) (by decide)⟩

/-- C2 counterexample: the stored line `"a,b,c"` (3 raw fields) is *not*
absent from the read: pandas pads the missing trailing field with NA and
keeps the row (only rows with more than 4 fields are skipped), so the full
read of a store holding only this bad line still returns one record. -/
theorem short_line_survives_read :
    rawFieldCount "a,b,c" = 3
    ∧ readRecords ["Name,Amount,Category,Date", "a,b,c"] =
        [{ name := some "a", amount := 0, category := some "c", date := none }] := by
  decide

/-! ## C7: the daily-budget division is safe -/

/-- C7: `remaining_days` is at least 1 on every path, hence never zero as
a rational, and the division by it is exact. -/
theorem remaining_days_positive (y m d : Nat) :
    1 ≤ remainingDays y m d
    ∧ (remainingDays y m d : Rat) ≠ 0
    ∧ ∀ b : Rat, b / (remainingDays y m d : Rat) * (remainingDays y m d : Rat) = b := by
  have h1 : 1 ≤ remainingDays y m d := le_max_left _ _
  have h2 : (remainingDays y m d : Rat) ≠ 0 := by
    have : remainingDays y m d ≠ 0 := by omega
    exact_mod_cast this
  exact ⟨h1, h2, fun b => div_mul_cancel₀ b h2⟩

/-! ## C6: the remaining-days policy -/

/-- C6 counterexample: on January 1st of a 31-day month the code computes
31 remaining days (today inclusive), while the spec sentence
"(days in current calendar month) − (current day of month)" gives 30. -/
theorem remaining_days_policy_counterexample :
    remainingDays 2024 1 1 = 31
    ∧ specRemainingDays 2024 1 1 = 30
    ∧ remainingDays 2024 1 1 ≠ specRemainingDays 2024 1 1 := by
  decide

/-! ## Evaluating the rounding and formatting on integral inputs -/

theorem ratRound_intCast (k : Int) : ratRound ((k : Rat)) = k := by
  simp only [ratRound, Rat.num_intCast, Rat.den_intCast]
  rw [Int.fdiv_eq_ediv _ (by omega)]
  omega

theorem ratRound_natCast (n : Nat) : ratRound ((n : Rat)) = (n : Int) := by
  have h : ((n : Int) : Rat) = ((n : Nat) : Rat) := by push_cast; ring
  rw [← h, ratRound_intCast]

theorem fmt2_eq_centsToStr (q : Rat) (n : Nat) (h : q * 100 = (n : Rat)) :
    fmt2 q = centsToStr n := by
  have hr : ratRound (q * 100) = (n : Int) := by rw [h, ratRound_natCast]
  have hnn : ¬((n : Int) < 0) := by omega
  simp [fmt2, hr, hnn]

theorem round2_eval (q : Rat) (n : Nat) (h : q * 100 = (n : Rat)) :
    round2 q = (n : Rat) / 100 := by
  have hr : ratRound (q * 100) = (n : Int) := by rw [h, ratRound_natCast]
  simp [round2, hr]

theorem round2_zero : round2 0 = 0 := by
  have h := round2_eval 0 0 (by norm_num)
  simpa using h

/-! ## C8: missing, empty, and header-only stores -/

/-- C8: a failed read (`none`), a totally empty file, and a header-only
file all yield a summary whose numeric total is 0, whose displayed total
is `$0.00`, and whose remaining budget is the full configured budget. -/
theorem empty_store_defaults (d : Date) (hdr : String) :
    (get_summary none d).2 = 0
    ∧ (get_summary none d).1.total_spent = "$0.00"
    ∧ (get_summary none d).1.remaining_budget = "$2000.00"
    ∧ (get_summary (some []) d).2 = 0
    ∧ (get_summary (some []) d).1.total_spent = "$0.00"
    ∧ (get_summary (some []) d).1.remaining_budget = "$2000.00"
    ∧ (get_summary (some [hdr]) d).2 = 0
    ∧ (get_summary (some [hdr]) d).1.total_spent = "$0.00"
    ∧ (get_summary (some [hdr]) d).1.remaining_budget = "$2000.00" := by
  have hbudget : fmt2 BUDGET = "2000.00" := by
    rw [fmt2_eq_centsToStr BUDGET 200000 (by norm_num [BUDGET])]
    decide
  have hzero : fmt2 (totalSpent (readRecords [hdr])) = "0.00" := by
    rw [show totalSpent (readRecords [hdr]) = 0 from by simp [readRecords, totalSpent]]
    rw [fmt2_eq_centsToStr 0 0 (by norm_num)]
    decide
  have hrem : fmt2 (BUDGET - totalSpent (readRecords [hdr])) = "2000.00" := by
    rw [fmt2_eq_centsToStr _ 200000
      (by simp [readRecords, totalSpent, BUDGET]; norm_num)]
    decide
  refine ⟨rfl, rfl, ?_, rfl, rfl, ?_, ?_, ?_, ?_⟩
  · simp [get_summary, defaultSummary, hbudget]
  · simp [get_summary, defaultSummary, hbudget]
  · simp [get_summary, readRecords, totalSpent]
  · simp [get_summary, hzero]
  · simp [get_summary, hrem]

/-! ## C1: per-category summaries -/

theorem lookup_map_self {f : String → Rat} {l : List String} {c : String} (hc : c ∈ l) :
    (l.map (fun x => (x, f x))).lookup c = some (f c) := by
  induction l with
  | nil => simp at hc
  | cons a t ih =>
    by_cases hca : c = a
    · subst hca; simp [List.lookup]
    · have hct : c ∈ t := by
        rcases List.mem_cons.mp hc with h | h
        · exact absurd h hca
        · exact h
      simpa [List.lookup, beq_false_of_ne hca] using ih hct

theorem lookup_map_none {f : String → Rat} {l : List String} {c : String} (hc : c ∉ l) :
    (l.map (fun x => (x, f x))).lookup c = none := by
  induction l with
  | nil => rfl
  | cons a t ih =>
    have hca : c ≠ a := fun h => hc (h ▸ List.mem_cons_self a t)
    have hct : c ∉ t := fun h => hc (List.mem_cons_of_mem a h)
    simpa [List.lookup, beq_false_of_ne hca] using ih hct

theorem mem_presentCategories {rs : List Record} {r : Record} {c : String}
    (hr : r ∈ rs) (hc : r.category = some c) : c ∈ presentCategories rs := by
  simp only [presentCategories, List.mem_dedup, List.mem_filterMap]
  exact ⟨r, hr, hc⟩

theorem matchSum_eq_zero {rs : List Record} {c : String}
    (hc : c ∉ presentCategories rs) : matchSum rs c = 0 := by
  have hfil : rs.filter (fun r => r.category = some c) = [] := by
    rw [List.filter_eq_nil_iff]
    intro r hr
    simp only [decide_eq_true_eq]
    exact fun h => hc (mem_presentCategories hr h)
  simp [matchSum, hfil]

theorem matchSum_cons (r : Record) (rs : List Record) (c : String) :
    matchSum (r :: rs) c = (if r.category = some c then r.amount else 0) + matchSum rs c := by
  by_cases h : r.category = some c <;> simp [matchSum, List.filter_cons, h]

theorem sum_map_add (l : List String) (f g : String → Rat) :
    (l.map (fun c => f c + g c)).sum = (l.map f).sum + (l.map g).sum := by
  induction l with
  | nil => simp
  | cons a t ih => simp [ih]; ring

theorem sum_indicator (ks : List String) (hnd : ks.Nodup) (c0 : String) (a : Rat)
    (hc0 : c0 ∈ ks) :
    (ks.map (fun c => if (some c0 : Option String) = some c then a else 0)).sum = a := by
  induction ks with
  | nil => simp at hc0
  | cons k t ih =>
    by_cases hk : c0 = k
    · subst hk
      have hz : ∀ c ∈ t, (if (some c0 : Option String) = some c then a else 0) = 0 := by
        intro c hc
        have : c0 ≠ c := fun h => (List.nodup_cons.mp hnd).1 (h ▸ hc)
        simp [this]
      simp only [List.map_cons, List.sum_cons, if_pos rfl]
      rw [List.map_congr_left hz]
      simp
    · have hct : c0 ∈ t := by
        rcases List.mem_cons.mp hc0 with h | h
        · exact absurd h hk
        · exact h
      have hne : ¬((some c0 : Option String) = some k) := by simp [hk]
      simp only [List.map_cons, List.sum_cons, if_neg hne]
      rw [ih (List.nodup_cons.mp hnd).2 hct]
      ring

theorem sum_matchSum (rs : List Record) (ks : List String) (hnd : ks.Nodup)
    (hcov : ∀ r ∈ rs, ∀ c, r.category = some c → c ∈ ks)
    (hall : ∀ r ∈ rs, r.category.isSome) :
    (ks.map (fun c => matchSum rs c)).sum = totalSpent rs := by
  induction rs with
  | nil =>
    rw [List.map_congr_left (fun c _ => show matchSum [] c = 0 from by simp [matchSum])]
    simp [totalSpent]
  | cons r rs ih =>
    obtain ⟨c0, hc0⟩ := Option.isSome_iff_exists.mp (hall r (List.mem_cons_self r rs))
    have hsplit : ∀ c ∈ ks, matchSum (r :: rs) c =
        (if (some c0 : Option String) = some c then r.amount else 0) + matchSum rs c := by
      intro c _
      rw [matchSum_cons, hc0]
    rw [List.map_congr_left hsplit, sum_map_add,
      sum_indicator ks hnd c0 r.amount (hcov r (List.mem_cons_self r rs) c0 hc0),
      ih (fun r' hr' => hcov r' (List.mem_cons_of_mem r hr'))
        (fun r' hr' => hall r' (List.mem_cons_of_mem r hr'))]
    simp [totalSpent]

/-- C1 (amended): the chart data the page derives from `category_summary`
has one entry for every configured category — the 2-decimal-rounded sum of
the matching amounts, `0.00` when nothing matches — but `category_summary`
itself omits categories with no matching records, and the unrounded
per-category sums over the categories present add up to `total_spent`
whenever every record carries a category. -/
theorem chart_has_all_categories (rs : List Record) (cat : String)
    (hcat : cat ∈ EXPENSE_CATEGORIES) :
    (chart_data (categorySummary rs)).lookup cat = some (round2 (matchSum rs cat))
    ∧ (cat ∉ presentCategories rs → (categorySummary rs).lookup cat = none)
    ∧ ((∀ r ∈ rs, r.category.isSome) →
        ((presentCategories rs).map (fun c => matchSum rs c)).sum = totalSpent rs) := by
  refine ⟨?_, ?_, ?_⟩
  · rw [show chart_data (categorySummary rs) =
        EXPENSE_CATEGORIES.map
          (fun c => (c, ((categorySummary rs).lookup c).getD 0)) from rfl,
      lookup_map_self hcat]
    by_cases hp : cat ∈ presentCategories rs
    · rw [show categorySummary rs =
          (presentCategories rs).map (fun c => (c, round2 (matchSum rs c))) from rfl,
        lookup_map_self hp]
      rfl
    · rw [show categorySummary rs =
          (presentCategories rs).map (fun c => (c, round2 (matchSum rs c))) from rfl,
        lookup_map_none hp, matchSum_eq_zero hp, round2_zero]
      rfl
  · intro hp
    rw [show categorySummary rs =
        (presentCategories rs).map (fun c => (c, round2 (matchSum rs c))) from rfl,
      lookup_map_none hp]
  · intro hall
    exact sum_matchSum rs (presentCategories rs) (List.nodup_dedup _)
      (fun r hr c hc => mem_presentCategories hr hc) hall

theorem chart_has_all_categories_witness :
    "🍔 Food" ∈ EXPENSE_CATEGORIES
    ∧ (chart_data (categorySummary
        [{ name := some "lunch", amount := 25/2, category := some "🍔 Food",
           date := some "2024-01-10" }])).lookup "🍔 Food" =
      some (round2 (matchSum
        [{ name := some "lunch", amount := 25/2, category := some "🍔 Food",
           date := some "2024-01-10" }] "🍔 Food"))
    ∧ ((presentCategories
        [{ name := some "lunch", amount := 25/2, category := some "🍔 Food",
           date := some "2024-01-10" }]).map
        (fun c => matchSum
          [{ name := some "lunch", amount := 25/2, category := some "🍔 Food",
             date := some "2024-01-10" }] c)).sum =
      totalSpent
        [{ name := some "lunch", amount := 25/2, category := some "🍔 Food",
           date := some "2024-01-10" }] :=
  ⟨by decide,
   (chart_has_all_categories _ "🍔 Food" (by decide)).1,
   (chart_has_all_categories
     [{ name := some "lunch", amount := 25/2, category := some "🍔 Food",
        date := some "2024-01-10" }] "🍔 Food" (by decide)).2.2 (by decide)⟩

/-- C1 counterexample: with one Food record, `category_summary` has *no*
entry for the configured category Home — the `groupby` omits categories
with no matching records, contradicting "never omitted". -/
theorem category_summary_omits_empty_category :
    "🏠 Home" ∈ EXPENSE_CATEGORIES
    ∧ (categorySummary
        [{ name := some "lunch", amount := 25/2, category := some "🍔 Food",
           date := some "2024-01-10" }]).lookup "🏠 Home" = none := by
  constructor
  · decide
  · rfl

/-! ## C3: invalid submissions are rejected without persisting -/

/-- C3: an empty name, an unparseable amount, a non-positive amount, or an
unknown category leaves the stored file unchanged and surfaces a rejection
message to the caller. -/
theorem invalid_submission_rejected (name : String) (amt : Option Rat) (cat : String)
    (d : Date) (file : List String)
    (h : name = "" ∨ amt = none ∨ (∃ a, amt = some a ∧ a ≤ 0) ∨ cat ∉ EXPENSE_CATEGORIES) :
    (handlePost ⟨name, amt, cat⟩ d file).1 = file
    ∧ ((handlePost ⟨name, amt, cat⟩ d file).2).isSome := by
  match amt with
  | none => exact ⟨rfl, rfl⟩
  | some a =>
    have hcond : ¬(name ≠ "" ∧ 0 < a ∧ cat ∈ EXPENSE_CATEGORIES) := by
      rcases h with h | h | ⟨a', ha', hle⟩ | h
      · exact fun hx => hx.1 h
      · exact absurd h (by simp)
      · have : a = a' := by injection ha'
        exact fun hx => absurd hx.2.1 (by rw [this]; exact not_lt.mpr hle)
      · exact fun hx => h hx.2.2
    simp [handlePost, hcond]

theorem invalid_submission_rejected_witness :
    ((("x" : String) = "" ∨ (some (-5) : Option Rat) = none
      ∨ (∃ a, (some (-5) : Option Rat) = some a ∧ a ≤ 0)
      ∨ ("🍔 Food" : String) ∉ EXPENSE_CATEGORIES))
    ∧ (handlePost ⟨"x", some (-5), "🍔 Food"⟩ ⟨2024, 1, 10⟩
        ["Name,Amount,Category,Date"]).1 = ["Name,Amount,Category,Date"]
    ∧ ((handlePost ⟨"x", some (-5), "🍔 Food"⟩ ⟨2024, 1, 10⟩
        ["Name,Amount,Category,Date"]).2).isSome :=
  ⟨Or.inr (Or.inr (Or.inl ⟨-5, rfl, by norm_num⟩)),
   (invalid_submission_rejected "x" (some (-5)) "🍔 Food" ⟨2024, 1, 10⟩
     ["Name,Amount,Category,Date"]
     (Or.inr (Or.inr (Or.inl ⟨-5, rfl, by norm_num⟩)))).1,
   (invalid_submission_rejected "x" (some (-5)) "🍔 Food" ⟨2024, 1, 10⟩
     ["Name,Amount,Category,Date"]
     (Or.inr (Or.inr (Or.inl ⟨-5, rfl, by norm_num⟩)))).2⟩

/-! ## C6: remaining days and daily budget -/

/-- C6 (amended): for a real date the code's remaining-days figure is
`days_in_month − day + 1` — the count *including* today, not excluding it —
and the displayed daily budget divides the remaining budget by exactly
that figure. -/
theorem daily_budget_uses_inclusive_days (y m d : Nat) (_h1 : 1 ≤ d)
    (h2 : d ≤ daysInMonth y m) (hdr : String) (rest : List String) :
    remainingDays y m d = (daysInMonth y m : Int) - d + 1
    ∧ (get_summary (some (hdr :: rest)) ⟨y, m, d⟩).1.daily_budget =
        "$" ++ fmt2 ((BUDGET - totalSpent (readRecords (hdr :: rest))) /
          (remainingDays y m d : Rat)) := by
  constructor
  · rw [remainingDays, max_eq_right]
    have : (d : Int) ≤ (daysInMonth y m : Int) := by exact_mod_cast h2
    omega
  · rfl

theorem daily_budget_uses_inclusive_days_witness :
    1 ≤ 10
    ∧ 10 ≤ daysInMonth 2024 1
    ∧ remainingDays 2024 1 10 = (daysInMonth 2024 1 : Int) - 10 + 1
    ∧ (get_summary (some ["Name,Amount,Category,Date"]) ⟨2024, 1, 10⟩).1.daily_budget =
        "$" ++ fmt2 ((BUDGET - totalSpent (readRecords ["Name,Amount,Category,Date"])) /
          (remainingDays 2024 1 10 : Rat)) :=
  ⟨by decide, by decide,
   (daily_budget_uses_inclusive_days 2024 1 10 (by decide) (by decide)
     "Name,Amount,Category,Date" []).1,
   (daily_budget_uses_inclusive_days 2024 1 10 (by decide) (by decide)
     "Name,Amount,Category,Date" []).2⟩

/-! ## Tokenizer step lemmas -/

theorem pCSV_true_cons (c : Char) (rest : List Char) (b : Bool) (acc : List Char)
    (hc : c ≠ '"') :
    pCSV (c :: rest) true b acc = pCSV rest true false (acc ++ [c]) := by
  cases rest with
  | nil => simp [pCSV, hc]
  | cons c2 r2 => simp [pCSV, hc]

theorem pCSV_true_qq (rest : List Char) (b : Bool) (acc : List Char) :
    pCSV ('"' :: '"' :: rest) true b acc = pCSV rest true false (acc ++ ['"']) := by
  simp [pCSV]

theorem pCSV_true_qclose (rest : List Char) (b : Bool) (acc : List Char)
    (h : rest = [] ∨ ∃ c t, rest = c :: t ∧ c ≠ '"') :
    pCSV ('"' :: rest) true b acc = pCSV rest false false acc := by
  rcases h with rfl | ⟨c, t, rfl, hc⟩
  · simp [pCSV]
  · simp [pCSV, hc]

theorem pCSV_false_comma (rest : List Char) (b : Bool) (acc : List Char) :
    pCSV (',' :: rest) false b acc = acc :: pCSV rest false true [] := by
  simp [pCSV]

theorem pCSV_false_mid (c : Char) (rest : List Char) (acc : List Char) (hc : c ≠ ',') :
    pCSV (c :: rest) false false acc = pCSV rest false false (acc ++ [c]) := by
  simp [pCSV, hc]

theorem pCSV_false_start_plain (c : Char) (rest : List Char) (acc : List Char)
    (h1 : c ≠ ',') (h2 : c ≠ '"') (h3 : c ≠ ' ') (h4 : c ≠ '\t') :
    pCSV (c :: rest) false true acc = pCSV rest false false (acc ++ [c]) := by
  simp [pCSV, h1, h2, h3, h4]

theorem pCSV_false_start_quote (rest : List Char) (acc : List Char) :
    pCSV ('"' :: rest) false true acc = pCSV rest true false acc := by
  simp [pCSV]

/-- An unquoted comma-free run that reaches the end of the line is one
field. -/
theorem pCSV_run_end (cs : List Char) (acc : List Char) (h : ∀ c ∈ cs, c ≠ ',') :
    pCSV cs false false acc = [acc ++ cs] := by
  induction cs generalizing acc with
  | nil => simp [pCSV]
  | cons c cs ih =>
    rw [pCSV_false_mid c cs acc (h c (List.mem_cons_self c cs)),
      ih (acc ++ [c]) (fun x hx => h x (List.mem_cons_of_mem c hx))]
    simp

/-- An unquoted comma-free run up to a comma is one field, and parsing
resumes at field start. -/
theorem pCSV_run_comma (cs : List Char) (acc r : List Char) (h : ∀ c ∈ cs, c ≠ ',') :
    pCSV (cs ++ ',' :: r) false false acc = (acc ++ cs) :: pCSV r false true [] := by
  induction cs generalizing acc with
  | nil => simp [pCSV_false_comma]
  | cons c cs ih =>
    rw [List.cons_append, pCSV_false_mid c _ acc (h c (List.mem_cons_self c cs)),
      ih (acc ++ [c]) (fun x hx => h x (List.mem_cons_of_mem c hx))]
    simp

/-- A quoted section: the escaped body followed by the closing quote
accumulates exactly the body. -/
theorem pCSV_quoted (cs : List Char) (acc r : List Char)
    (hr : r = [] ∨ ∃ c t, r = c :: t ∧ c ≠ '"') :
    pCSV (escapeChars cs ++ '"' :: r) true false acc = pCSV r false false (acc ++ cs) := by
  induction cs generalizing acc with
  | nil =>
    rw [show escapeChars [] = [] from rfl, List.nil_append,
      pCSV_true_qclose r false acc hr]
    simp
  | cons c cs ih =>
    by_cases hc : c = '"'
    · subst hc
      rw [show escapeChars ('"' :: cs) = '"' :: '"' :: escapeChars cs from by
          simp [escapeChars]]
      rw [List.cons_append, List.cons_append, pCSV_true_qq, ih (acc ++ ['"'])]
      simp
    · rw [show escapeChars (c :: cs) = c :: escapeChars cs from by simp [escapeChars, hc]]
      rw [List.cons_append, pCSV_true_cons c _ false acc hc, ih (acc ++ [c])]
      simp

/-! ## Serialize-then-parse roundtrip -/

/-- A serialized field followed by a comma parses back to the field. -/
theorem parse_field_comma (f : String) (r : List Char)
    (h1 : f.data.head? ≠ some ' ') (h2 : f.data.head? ≠ some '\t') :
    pCSV ((serializeField f).data ++ ',' :: r) false true [] =
      f.data :: pCSV r false true [] := by
  by_cases hq : needsQuote f
  · rw [show (serializeField f).data = '"' :: (escapeChars f.data ++ ['"']) from by
        simp [serializeField, hq]]
    rw [List.cons_append, List.append_assoc,
      show (['"'] ++ ',' :: r : List Char) = '"' :: ',' :: r from rfl,
      pCSV_false_start_quote,
      pCSV_quoted f.data [] (',' :: r) (Or.inr ⟨',', r, rfl, by decide⟩),
      List.nil_append, pCSV_false_comma]
  · have hq2 : ∀ x ∈ f.data, ((¬x = ',' ∧ ¬x = '"') ∧ ¬x = '\n') ∧ ¬x = '\x0d' := by
      simpa [needsQuote] using hq
    have hplain : ∀ c ∈ f.data, c ≠ ',' ∧ c ≠ '"' :=
      fun c hc => ⟨(hq2 c hc).1.1.1, (hq2 c hc).1.1.2⟩
    rw [show (serializeField f).data = f.data from by simp [serializeField, hq]]
    cases hdata : f.data with
    | nil => simp [pCSV_false_comma]
    | cons c cs =>
      have hmem : c ∈ f.data := by rw [hdata]; exact List.mem_cons_self c cs
      have hsp : c ≠ ' ' := by rw [hdata] at h1; intro e; exact h1 (by subst e; rfl)
      have htb : c ≠ '\t' := by rw [hdata] at h2; intro e; exact h2 (by subst e; rfl)
      rw [List.cons_append,
        pCSV_false_start_plain c _ [] ((hplain c hmem).1) ((hplain c hmem).2) hsp htb]
      simp only [List.nil_append]
      rw [pCSV_run_comma cs [c] r
          (fun x hx => (hplain x (hdata ▸ List.mem_cons_of_mem c hx)).1)]
      simp

/-- A serialized field at the end of the line parses back to the field. -/
theorem parse_field_end (f : String)
    (h1 : f.data.head? ≠ some ' ') (h2 : f.data.head? ≠ some '\t') :
    pCSV (serializeField f).data false true [] = [f.data] := by
  by_cases hq : needsQuote f
  · rw [show (serializeField f).data = '"' :: (escapeChars f.data ++ ['"']) from by
        simp [serializeField, hq]]
    rw [pCSV_false_start_quote,
      pCSV_quoted f.data [] [] (Or.inl rfl),
      List.nil_append, pCSV]
  · have hq2 : ∀ x ∈ f.data, ((¬x = ',' ∧ ¬x = '"') ∧ ¬x = '\n') ∧ ¬x = '\x0d' := by
      simpa [needsQuote] using hq
    have hplain : ∀ c ∈ f.data, c ≠ ',' ∧ c ≠ '"' :=
      fun c hc => ⟨(hq2 c hc).1.1.1, (hq2 c hc).1.1.2⟩
    rw [show (serializeField f).data = f.data from by simp [serializeField, hq]]
    cases hdata : f.data with
    | nil => simp [pCSV]
    | cons c cs =>
      have hmem : c ∈ f.data := by rw [hdata]; exact List.mem_cons_self c cs
      have hsp : c ≠ ' ' := by rw [hdata] at h1; intro e; exact h1 (by subst e; rfl)
      have htb : c ≠ '\t' := by rw [hdata] at h2; intro e; exact h2 (by subst e; rfl)
      rw [pCSV_false_start_plain c _ [] ((hplain c hmem).1) ((hplain c hmem).2) hsp htb]
      simp only [List.nil_append]
      rw [pCSV_run_end cs [c]
          (fun x hx => (hplain x (hdata ▸ List.mem_cons_of_mem c hx)).1)]
      simp

/-- A whole serialized row tokenizes back to its fields, provided no field
starts with a space or a tab (which `skipinitialspace=True` would eat). -/
theorem parse_serialized_line (fields : List String) (hne : fields ≠ [])
    (hok : ∀ f ∈ fields, f.data.head? ≠ some ' ' ∧ f.data.head? ≠ some '\t') :
    parseCSVLine (serializeLine fields) = fields := by
  induction fields with
  | nil => exact absurd rfl hne
  | cons f fs ih =>
    cases fs with
    | nil =>
      have h := hok f (List.mem_cons_self f [])
      show (pCSV (joinComma [serializeField f]) false true []).map String.mk = [f]
      rw [show joinComma [serializeField f] = (serializeField f).data from rfl,
        parse_field_end f h.1 h.2]
      rfl
    | cons f2 fs2 =>
      have h := hok f (List.mem_cons_self f (f2 :: fs2))
      have ih2 : (pCSV (joinComma ((f2 :: fs2).map serializeField))
          false true []).map String.mk = f2 :: fs2 :=
        ih (by simp) (fun g hg => hok g (List.mem_cons_of_mem f hg))
      show (pCSV (joinComma ((f :: f2 :: fs2).map serializeField))
          false true []).map String.mk = f :: f2 :: fs2
      rw [show joinComma ((f :: f2 :: fs2).map serializeField) =
          (serializeField f).data ++ ',' ::
            joinComma ((f2 :: fs2).map serializeField) from rfl,
        parse_field_comma f _ h.1 h.2]
      simp only [List.map_cons] at ih2 ⊢
      rw [ih2]

/-! ## Digit strings -/

theorem digitChar_isDig (d : Nat) (h : d < 10) : isDig (digitChar d) = true := by
  interval_cases d <;> decide

theorem digitChar_val (d : Nat) (h : d < 10) : digVal (digitChar d) = d := by
  interval_cases d <;> decide

theorem isDig_ne (c : Char) (h : isDig c = true) :
    c ≠ ' ' ∧ c ≠ '\t' ∧ c ≠ ',' ∧ c ≠ '"' ∧ c ≠ '.' ∧ c ≠ '-' := by
  have hb : 48 ≤ c.toNat ∧ c.toNat ≤ 57 := by
    simpa [isDig, Bool.and_eq_true, decide_eq_true_eq] using h
  refine ⟨?_, ?_, ?_, ?_, ?_, ?_⟩ <;> (rintro rfl; exact absurd hb (by decide))

theorem digitsVal_append_singleton (cs : List Char) (c : Char) :
    digitsVal (cs ++ [c]) = digitsVal cs * 10 + digVal c := by
  simp [digitsVal, List.foldl_append]

theorem natDigitsAux_spec (fuel : Nat) :
    ∀ n, n < fuel →
      natDigitsAux fuel n ≠ []
      ∧ (∀ c ∈ natDigitsAux fuel n, isDig c = true)
      ∧ digitsVal (natDigitsAux fuel n) = n := by
  induction fuel with
  | zero => intro n h; omega
  | succ fuel ih =>
    intro n h
    by_cases h10 : n < 10
    · refine ⟨by simp [natDigitsAux, h10], ?_, ?_⟩
      · intro c hc
        rw [show natDigitsAux (fuel + 1) n = [digitChar n] from by
          simp [natDigitsAux, h10]] at hc
        rcases List.mem_singleton.mp hc with rfl
        exact digitChar_isDig n h10
      · rw [show natDigitsAux (fuel + 1) n = [digitChar n] from by
          simp [natDigitsAux, h10]]
        simpa [digitsVal] using digitChar_val n h10
    · have hrec : n / 10 < fuel := by omega
      obtain ⟨hne, hdig, hval⟩ := ih (n / 10) hrec
      have heq : natDigitsAux (fuel + 1) n =
          natDigitsAux fuel (n / 10) ++ [digitChar (n % 10)] := by
        simp [natDigitsAux, h10]
      refine ⟨by simp [heq], ?_, ?_⟩
      · intro c hc
        rw [heq] at hc
        rcases List.mem_append.mp hc with hc | hc
        · exact hdig c hc
        · rcases List.mem_singleton.mp hc with rfl
          exact digitChar_isDig (n % 10) (by omega)
      · rw [heq, digitsVal_append_singleton, hval, digitChar_val (n % 10) (by omega)]
        omega

theorem natDigits_spec (n : Nat) :
    natDigits n ≠ []
    ∧ (∀ c ∈ natDigits n, isDig c = true)
    ∧ digitsVal (natDigits n) = n :=
  natDigitsAux_spec (n + 1) n (by omega)

theorem pad2chars_spec (r : Nat) (h : r < 100) :
    (pad2chars r).length = 2
    ∧ (∀ c ∈ pad2chars r, isDig c = true)
    ∧ digitsVal (pad2chars r) = r := by
  by_cases h10 : r < 10
  · refine ⟨by simp [pad2chars, h10], ?_, ?_⟩
    · intro c hc
      rw [show pad2chars r = ['0', digitChar r] from by simp [pad2chars, h10]] at hc
      rcases List.mem_cons.mp hc with rfl | hc
      · decide
      · rcases List.mem_singleton.mp hc with rfl
        exact digitChar_isDig r h10
    · rw [show pad2chars r = ['0', digitChar r] from by simp [pad2chars, h10]]
      have hv := digitChar_val r h10
      show digitsVal ['0', digitChar r] = r
      simp only [digitsVal, List.foldl_cons, List.foldl_nil]
      rw [show digVal '0' = 0 from rfl, hv]
      omega
  · refine ⟨by simp [pad2chars, h10], ?_, ?_⟩
    · intro c hc
      rw [show pad2chars r = [digitChar (r / 10), digitChar (r % 10)] from by
        simp [pad2chars, h10]] at hc
      rcases List.mem_cons.mp hc with rfl | hc
      · exact digitChar_isDig (r / 10) (by omega)
      · rcases List.mem_singleton.mp hc with rfl
        exact digitChar_isDig (r % 10) (by omega)
    · rw [show pad2chars r = [digitChar (r / 10), digitChar (r % 10)] from by
        simp [pad2chars, h10]]
      have h1 := digitChar_val (r / 10) (by omega)
      have h2 := digitChar_val (r % 10) (by omega)
      show digitsVal [digitChar (r / 10), digitChar (r % 10)] = r
      simp only [digitsVal, List.foldl_cons, List.foldl_nil]
      rw [h1, h2]
      omega

theorem takeWhile_all_append {p : Char → Bool} (xs : List Char) (y : Char) (ys : List Char)
    (hx : ∀ x ∈ xs, p x = true) (hy : p y = false) :
    (xs ++ y :: ys).takeWhile p = xs ∧ (xs ++ y :: ys).dropWhile p = y :: ys := by
  induction xs with
  | nil => simp [List.takeWhile_cons, List.dropWhile_cons, hy]
  | cons x xs ih =>
    have hpx := hx x (List.mem_cons_self x xs)
    have := ih (fun a ha => hx a (List.mem_cons_of_mem x ha))
    simp [List.takeWhile_cons, List.dropWhile_cons, hpx, this.1, this.2]

/-! ## The formatted amount reads back as the rounded amount -/

theorem centsToStr_data (m : Nat) :
    (centsToStr m).data = natDigits (m / 100) ++ '.' :: pad2chars (m % 100) := by
  simp [centsToStr, natToStr]

theorem parseUnsigned_cents (m : Nat) :
    parseUnsigned (centsToStr m).data = some ((m : Rat) / 100) := by
  have hip := natDigits_spec (m / 100)
  have hfr := pad2chars_spec (m % 100) (by omega)
  have htw := takeWhile_all_append (p := fun c => decide (c ≠ '.'))
    (natDigits (m / 100)) '.' (pad2chars (m % 100))
    (fun x hx => by
      have := isDig_ne x (hip.2.1 x hx)
      simp [this.2.2.2.2.1])
    (by simp)
  rw [centsToStr_data]
  simp only [parseUnsigned]
  rw [htw.1, htw.2]
  have hall : (natDigits (m / 100)).all isDig = true := List.all_eq_true.mpr hip.2.1
  have hallf : (pad2chars (m % 100)).all isDig = true := List.all_eq_true.mpr hfr.2.1
  have hieb : (natDigits (m / 100)).isEmpty = false := by
    cases hd : natDigits (m / 100) with
    | nil => exact absurd hd hip.1
    | cons a l => rfl
  simp only [hall, hallf, hieb, if_true, Bool.and_false, Bool.not_false, if_pos]
  rw [hip.2.2, hfr.2.2, hfr.1]
  have hmn : (100 : Rat) * ((m / 100 : Nat) : Rat) + ((m % 100 : Nat) : Rat) = (m : Rat) := by
    exact_mod_cast Nat.div_add_mod m 100
  rw [show ((10 : Rat) ^ 2) = 100 from by norm_num]
  field_simp
  linarith [hmn]

theorem fmt2_nonneg_eq (q : Rat) (h : 0 ≤ q) :
    fmt2 q = centsToStr (ratRound (q * 100)).toNat
    ∧ 0 ≤ ratRound (q * 100) := by
  have hn : 0 ≤ ratRound (q * 100) := by
    apply Int.fdiv_nonneg
    · have hq : 0 ≤ (q * 100 : Rat) := by positivity
      have hnum : 0 ≤ (q * 100).num := Rat.num_nonneg.mpr hq
      have hden : (0 : Int) < (q * 100).den := by exact_mod_cast (q * 100).den_pos
      omega
    · have hden : (0 : Int) < (q * 100).den := by exact_mod_cast (q * 100).den_pos
      omega
  exact ⟨by simp [fmt2, not_lt.mpr hn], hn⟩

theorem parseNumeric_fmt2 (q : Rat) (h : 0 ≤ q) :
    parseNumeric (fmt2 q) = some (round2 q) := by
  obtain ⟨hfmt, hn⟩ := fmt2_nonneg_eq q h
  set m := (ratRound (q * 100)).toNat with hm
  obtain ⟨c, cs, hdata, hcdig⟩ :
      ∃ c cs, (centsToStr m).data = c :: cs ∧ isDig c = true := by
    obtain ⟨hne, hdig, -⟩ := natDigits_spec (m / 100)
    cases hd : natDigits (m / 100) with
    | nil => exact absurd hd hne
    | cons a l =>
      refine ⟨a, l ++ '.' :: pad2chars (m % 100), ?_, ?_⟩
      · rw [centsToStr_data, hd]; rfl
      · exact hdig a (by rw [hd]; exact List.mem_cons_self a l)
  have hnotdash : c ≠ '-' := (isDig_ne c hcdig).2.2.2.2.2
  rw [hfmt]
  show parseNum (centsToStr m).data = some (round2 q)
  rw [hdata, parseNum]
  simp only [hnotdash, if_false, if_neg hnotdash]
  rw [← hdata, parseUnsigned_cents m]
  have : ((m : Nat) : Rat) = ((ratRound (q * 100) : Int) : Rat) := by
    rw [hm]
    exact_mod_cast congrArg (Int.cast : Int → Rat) (Int.toNat_of_nonneg hn)
  rw [round2, this]

/-! ## Field shapes of serialized rows -/

theorem categories_ok :
    ∀ c ∈ EXPENSE_CATEGORIES,
      c ∉ naSentinels ∧ c.data.head? ≠ some ' ' ∧ c.data.head? ≠ some '\t' := by
  decide

theorem centsToStr_head (m : Nat) :
    ∃ c cs, (centsToStr m).data = c :: cs ∧ isDig c = true := by
  obtain ⟨hne, hdig, -⟩ := natDigits_spec (m / 100)
  cases hd : natDigits (m / 100) with
  | nil => exact absurd hd hne
  | cons a l =>
    refine ⟨a, l ++ '.' :: pad2chars (m % 100), ?_, ?_⟩
    · rw [centsToStr_data, hd]; rfl
    · exact hdig a (by rw [hd]; exact List.mem_cons_self a l)

theorem fmt2_head_ok (q : Rat) :
    (fmt2 q).data.head? ≠ some ' ' ∧ (fmt2 q).data.head? ≠ some '\t' := by
  by_cases hn : ratRound (q * 100) < 0
  · have hdata : (fmt2 q).data = '-' :: (centsToStr (ratRound (q * 100)).natAbs).data := by
      simp [fmt2, hn]
    rw [hdata]
    simp only [List.head?_cons, ne_eq, Option.some.injEq]
    exact ⟨by decide, by decide⟩
  · have hdata : fmt2 q = centsToStr (ratRound (q * 100)).toNat := by
      simp [fmt2, hn]
    obtain ⟨c, cs, hcs, hdg⟩ := centsToStr_head (ratRound (q * 100)).toNat
    rw [hdata, hcs]
    have hno := isDig_ne c hdg
    simp only [List.head?_cons, ne_eq, Option.some.injEq]
    exact ⟨hno.1, hno.2.1⟩

theorem pad4chars_head (y : Nat) : ∃ c cs, pad4chars y = c :: cs ∧ isDig c = true := by
  obtain ⟨hne, hdig, -⟩ := natDigits_spec y
  by_cases h10 : y < 10
  · exact ⟨'0', ['0', '0', digitChar y], by simp [pad4chars, h10], by decide⟩
  · by_cases h100 : y < 100
    · exact ⟨'0', '0' :: natDigits y, by simp [pad4chars, h10, h100], by decide⟩
    · by_cases h1000 : y < 1000
      · exact ⟨'0', natDigits y, by simp [pad4chars, h10, h100, h1000], by decide⟩
      · cases hd : natDigits y with
        | nil => exact absurd hd hne
        | cons a l =>
          refine ⟨a, l, by simp [pad4chars, h10, h100, h1000, hd], ?_⟩
          exact hdig a (by rw [hd]; exact List.mem_cons_self a l)

theorem isoDate_ok (d : Date) :
    isoDate d ≠ "" ∧ (isoDate d).data.head? ≠ some ' '
    ∧ (isoDate d).data.head? ≠ some '\t' := by
  obtain ⟨c, cs, hcs, hdg⟩ := pad4chars_head d.year
  have hdata : (isoDate d).data = c :: (cs ++ '-' :: (pad2chars d.month ++ '-' ::
      pad2chars d.day)) := by
    simp [isoDate, hcs]
  have hno := isDig_ne c hdg
  refine ⟨?_, ?_, ?_⟩
  · intro h
    have : (isoDate d).data = [] := by rw [h]
    rw [hdata] at this
    exact List.cons_ne_nil _ _ this
  · rw [hdata]
    simp only [List.head?_cons, ne_eq, Option.some.injEq]
    exact hno.1
  · rw [hdata]
    simp only [List.head?_cons, ne_eq, Option.some.injEq]
    exact hno.2.1

/-- No NA sentinel string has two leading decimal digits. -/
theorem digit2_not_sentinel (s : String) (c0 c1 : Char) (rest : List Char)
    (hdata : s.data = c0 :: c1 :: rest) (h0 : isDig c0 = true) (h1 : isDig c1 = true) :
    s ∉ naSentinels := by
  intro hmem
  have hkey : ∀ t ∈ naSentinels,
      ¬((t.data.take 2).length = 2 ∧ (t.data.take 2).all isDig = true) := by decide
  refine hkey s hmem ⟨?_, ?_⟩
  · rw [hdata]
    rfl
  · rw [hdata]
    simp [h0, h1]

/-- `pad4chars` always begins with two decimal digits. -/
theorem pad4chars_two (y : Nat) :
    ∃ c0 c1 rest, pad4chars y = c0 :: c1 :: rest ∧ isDig c0 = true ∧ isDig c1 = true := by
  by_cases h10 : y < 10
  · exact ⟨'0', '0', ['0', digitChar y], by simp [pad4chars, h10], by decide, by decide⟩
  · by_cases h100 : y < 100
    · exact ⟨'0', '0', natDigits y, by simp [pad4chars, h10, h100], by decide, by decide⟩
    · by_cases h1000 : y < 1000
      · obtain ⟨hne, hdig, -⟩ := natDigits_spec y
        cases hd : natDigits y with
        | nil => exact absurd hd hne
        | cons a l =>
          exact ⟨'0', a, l, by simp [pad4chars, h10, h100, h1000, hd], by decide,
            hdig a (by rw [hd]; exact List.mem_cons_self a l)⟩
      · have heq : natDigits y = natDigitsAux y (y / 10) ++ [digitChar (y % 10)] := by
          rw [natDigits]
          rw [show natDigitsAux (y + 1) y = if y < 10 then [digitChar y]
            else natDigitsAux y (y / 10) ++ [digitChar (y % 10)] from rfl, if_neg h10]
        obtain ⟨hne, hdig, -⟩ := natDigitsAux_spec y (y / 10) (by omega)
        have hpad : pad4chars y = natDigits y := by simp [pad4chars, h10, h100, h1000]
        cases hd : natDigitsAux y (y / 10) with
        | nil => exact absurd hd hne
        | cons a l =>
          have ha : isDig a = true := hdig a (by rw [hd]; exact List.mem_cons_self a l)
          cases l with
          | nil =>
            refine ⟨a, digitChar (y % 10), [], ?_, ha, digitChar_isDig (y % 10) (by omega)⟩
            rw [hpad, heq, hd]
            rfl
          | cons b t =>
            have hb : isDig b = true :=
              hdig b (by rw [hd]; exact List.mem_cons_of_mem a (List.mem_cons_self b t))
            refine ⟨a, b, t ++ [digitChar (y % 10)], ?_, ha, hb⟩
            rw [hpad, heq, hd]
            rfl

/-- An ISO date is never an NA sentinel (its first two characters are
digits). -/
theorem isoDate_not_sentinel (d : Date) : isoDate d ∉ naSentinels := by
  obtain ⟨c0, c1, rest, hp, h0, h1⟩ := pad4chars_two d.year
  apply digit2_not_sentinel (isoDate d) c0 c1
    (rest ++ '-' :: (pad2chars d.month ++ '-' :: pad2chars d.day)) ?_ h0 h1
  simp [isoDate, hp]

/-- The row appended for a valid submission parses back to a record whose
name cell is the pandas NA coercion of the name, whose amount is the
rounded amount, and whose category and date are the submitted category and
the clock date (the name must not begin with a space or tab, which
`skipinitialspace=True` would eat). -/
theorem parseRow_serialized (name : String) (a : Rat) (cat : String) (d : Date)
    (h5 : name.data.head? ≠ some ' ') (h6 : name.data.head? ≠ some '\t')
    (ha : 0 ≤ a) (hcat : cat ∈ EXPENSE_CATEGORIES) :
    parseRow (serializeLine [name, fmt2 a, cat, isoDate d]) =
      some { name := cell (some name), amount := round2 a,
             category := some cat, date := some (isoDate d) } := by
  have hfields : parseCSVLine (serializeLine [name, fmt2 a, cat, isoDate d]) =
      [name, fmt2 a, cat, isoDate d] := by
    apply parse_serialized_line _ (by simp)
    intro f hf
    rcases (show f = name ∨ f = fmt2 a ∨ f = cat ∨ f = isoDate d by
      simpa using hf) with rfl | rfl | rfl | rfl
    · exact ⟨h5, h6⟩
    · exact fmt2_head_ok a
    · exact ⟨(categories_ok _ hcat).2.1, (categories_ok _ hcat).2.2⟩
    · exact ⟨(isoDate_ok d).2.1, (isoDate_ok d).2.2⟩
  have hline : serializeLine [name, fmt2 a, cat, isoDate d] ≠ "" := by
    intro h
    rw [h] at hfields
    have hlen : (parseCSVLine "").length = 4 := by rw [hfields]; rfl
    exact absurd hlen (by decide)
  rw [parseRow, if_neg hline, hfields]
  rw [if_neg (by norm_num)]
  simp [cell, (categories_ok cat hcat).1, isoDate_not_sentinel d,
    parseNumeric_fmt2 a ha]

/-! ## C4: append followed by read -/

/-- C9: the valid submission with name `a,b` is appended as a CSV-quoted
line whose raw comma-split has 5 fields; the pandas read still returns the
record (quotes parsed), but `clean_csv` drops the line, silently deleting
the validly appended record. -/
theorem comma_name_append_lost_by_repair :
    ("a,b" ≠ "" ∧ (0 : Rat) < 5 ∧ "🍔 Food" ∈ EXPENSE_CATEGORIES)
    ∧ handlePost ⟨"a,b", some 5, "🍔 Food"⟩ ⟨2024, 1, 10⟩ ["Name,Amount,Category,Date"] =
        (["Name,Amount,Category,Date", "\"a,b\",5.00,🍔 Food,2024-01-10"], none)
    ∧ rawFieldCount "\"a,b\",5.00,🍔 Food,2024-01-10" = 5
    ∧ clean_csv ["Name,Amount,Category,Date", "\"a,b\",5.00,🍔 Food,2024-01-10"] =
        ["Name,Amount,Category,Date"]
    ∧ (readRecords ["Name,Amount,Category,Date", "\"a,b\",5.00,🍔 Food,2024-01-10"]).map
        Record.name = [some "a,b"]
    ∧ readRecords (clean_csv
        ["Name,Amount,Category,Date", "\"a,b\",5.00,🍔 Food,2024-01-10"]) = [] := by
  have hf5 : fmt2 (5 : Rat) = "5.00" := by
    rw [fmt2_eq_centsToStr 5 500 (by push_cast; norm_num)]
    decide
  have hline : serializeLine ["a,b", fmt2 (5 : Rat), "🍔 Food", isoDate ⟨2024, 1, 10⟩] =
      "\"a,b\",5.00,🍔 Food,2024-01-10" := by
    rw [hf5]
    decide
  refine ⟨⟨by decide, by norm_num, by decide⟩, ?_, by decide, by decide, by decide, by decide⟩
  simp only [handlePost]
  rw [if_pos ⟨by decide, by norm_num, by decide⟩, hline]
  rfl

/-! ## C10: the appended date is the server's current date -/

/-- C10: the date field of the appended record is `isoDate` of the clock
date passed to the handler; the submission carries no date at all, so the
stored and read-back date is always the handler's current date. -/
theorem appended_date_is_today (name : String) (a : Rat) (cat : String) (d : Date)
    (file : List String)
    (h1 : name ≠ "") (h2 : 0 < a) (h3 : cat ∈ EXPENSE_CATEGORIES)
    (h5 : name.data.head? ≠ some ' ') (h6 : name.data.head? ≠ some '\t') :
    (handlePost ⟨name, some a, cat⟩ d file).1 =
      file ++ [serializeLine [name, fmt2 a, cat, isoDate d]]
    ∧ (parseRow (serializeLine [name, fmt2 a, cat, isoDate d])).map Record.date =
        some (some (isoDate d)) := by
  constructor
  · simp only [handlePost]
    rw [if_pos ⟨h1, h2, h3⟩]
  · rw [parseRow_serialized name a cat d h5 h6 (le_of_lt h2) h3]
    rfl

theorem appended_date_is_today_witness :
    ("lunch" ≠ "" ∧ (0 : Rat) < 5 ∧ "🍔 Food" ∈ EXPENSE_CATEGORIES)
    ∧ (handlePost ⟨"lunch", some 5, "🍔 Food"⟩ ⟨2024, 1, 10⟩
        ["Name,Amount,Category,Date"]).1 =
      ["Name,Amount,Category,Date"] ++
        [serializeLine ["lunch", fmt2 5, "🍔 Food", isoDate ⟨2024, 1, 10⟩]]
    ∧ (parseRow (serializeLine ["lunch", fmt2 5, "🍔 Food",
        isoDate ⟨2024, 1, 10⟩])).map Record.date = some (some (isoDate ⟨2024, 1, 10⟩)) :=
  ⟨⟨by decide, by norm_num, by decide⟩,
   (appended_date_is_today "lunch" 5 "🍔 Food" ⟨2024, 1, 10⟩ ["Name,Amount,Category,Date"]
     (by decide) (by norm_num) (by decide) (by decide) (by decide)).1,
   (appended_date_is_today "lunch" 5 "🍔 Food" ⟨2024, 1, 10⟩ ["Name,Amount,Category,Date"]
     (by decide) (by norm_num) (by decide) (by decide) (by decide)).2⟩

end ExpenseTracker
